import Mathlib

/-!
Verification of `shindo.py`: computation of the JMA instrumental seismic
intensity (shindo) from three-axis acceleration data.

The source is embedded shallowly:

* `_search_aval` (the intensity search): its `while True` loop is modelled
  by the fuel-indexed function `searchFrom`; `none` means the loop has not
  terminated within the given fuel.  All arithmetic of the loop is over an
  arbitrary linear ordered field, matching exact (non-floating-point)
  arithmetic; claims can be evaluated concretely at `ℚ`.
* `_filter` (the spectral filter): a pure function on the list of complex
  spectrum bins, one triple per bin (the three channels N-S, E-W, U-D);
  the in-place update `A[:,j] *= W` becomes construction of the scaled list.
* `getShindo`: the pipeline, over `ℝ`/`ℂ`.  The forward and inverse FFT
  (`np.fft.rfft` / `np.fft.irfft`) are external collaborators of the
  repository; they are modelled from the spec as the real-input discrete
  Fourier transform and its inverse.  No claim depends on their values.
* `getShindoName`: a pure classification function; the Python `if/elif`
  chain with no final `else` is modelled with result type `Option String`.
-/

/-- Source `_search_aval`: `T_ref = 0.3`, the target time above the a value. -/
def T_ref (α : Type) [LinearOrderedField α] : α := 0.3

/-- Source `_search_aval`: local `epsilon = T_ref * 0.001`, the acceptable error. -/
def searchEps (α : Type) [LinearOrderedField α] : α := T_ref α * 0.001

/-- Source `_search_aval`, loop body: `T_above_aval = np.count_nonzero(a >= aval) * Ts`. -/
def Tabove {α : Type} [LinearOrderedField α] (a : List α) (Ts aval : α) : α :=
  (a.countP fun x => decide (aval ≤ x)) * Ts

/-- The `while True` loop of `_search_aval`, with fuel.  One step: if
`T_above_aval < T_ref - epsilon` then `aval -= aval / 2`; else if
`T_above_aval > T_ref + epsilon` then `aval += aval / 2`; else return `aval`.
`none` models the loop not having terminated within `fuel` iterations. -/
def searchFrom {α : Type} [LinearOrderedField α] (a : List α) (Ts : α) : ℕ → α → Option α
  | 0, _ => none
  | fuel + 1, aval =>
    if Tabove a Ts aval < T_ref α - searchEps α then searchFrom a Ts fuel (aval - aval / 2)
    else if T_ref α + searchEps α < Tabove a Ts aval then searchFrom a Ts fuel (aval + aval / 2)
    else some aval

/-- Source `_search_aval`: the search starts from the initial estimate `aval = 2000.0`. -/
def _search_aval {α : Type} [LinearOrderedField α] (a : List α) (Ts : α) (fuel : ℕ) : Option α :=
  searchFrom a Ts fuel 2000

/-- Source `_filter`: the polynomial under the square root of the high-cut
filter, in `x = f / 10`. -/
noncomputable def hcPoly (f : ℝ) : ℝ :=
  1 + 0.694 * (f / 10) ^ 2 + 0.241 * (f / 10) ^ 4 + 0.0557 * (f / 10) ^ 6
    + 0.009664 * (f / 10) ^ 8 + 0.00134 * (f / 10) ^ 10 + 0.000155 * (f / 10) ^ 12

/-- Source `_filter`: periodic-effect filter `W_pe = np.sqrt(1 / (f + epsilon))`
with `epsilon = 0.0001`. -/
noncomputable def W_pe (f : ℝ) : ℝ := Real.sqrt (1 / (f + 0.0001))

/-- Source `_filter`: high-cut filter `W_hc = 1 / np.sqrt(1 + 0.694 x² + ... + 0.000155 x¹²)`. -/
noncomputable def W_hc (f : ℝ) : ℝ := 1 / Real.sqrt (hcPoly f)

/-- Source `_filter`: low-cut filter `W_lc = np.sqrt(1 - np.exp(-(f / 0.5)**3))`. -/
noncomputable def W_lc (f : ℝ) : ℝ := Real.sqrt (1 - Real.exp (-(f / 0.5) ^ 3))

/-- The combined per-bin weight `W_pe * W_hc * W_lc` applied by source `_filter`
to each of the three channels. -/
noncomputable def filterWeight (f : ℝ) : ℝ := W_pe f * W_hc f * W_lc f

/-- Source `_filter`: `N = len(A)` is the number of rows of the spectrum `A`
(one triple of complex bins per row), `f = k / (N * Ts * 2)`, and each channel of
bin `k` is multiplied by the same real weight.  The in-place `A[:,j] *= W` is
modelled by returning the scaled list. -/
noncomputable def _filter (A : List (ℂ × ℂ × ℂ)) (Ts : ℝ) : List (ℂ × ℂ × ℂ) :=
  let N := A.length
  A.mapIdx fun k z =>
    let f : ℝ := (k : ℝ) / ((N : ℝ) * Ts * 2)
    (((filterWeight f : ℝ) : ℂ) * z.1,
     ((filterWeight f : ℝ) : ℂ) * z.2.1,
     ((filterWeight f : ℝ) : ℂ) * z.2.2)

/-- Modelled from the spec: the forward-transform collaborator (`np.fft.rfft` in
the source is external to the repository), "N real samples → N/2+1 complex bins":
discrete Fourier transform bin `A_k = Σ_m a_m exp(-2πi k m / N)` of one channel. -/
noncomputable def dftBin (x : List ℝ) (k : ℕ) : ℂ :=
  ∑ m ∈ Finset.range x.length,
    ((x.getD m 0 : ℝ) : ℂ) * Complex.exp (-(2 * Real.pi * Complex.I * k * m) / (x.length : ℂ))

/-- Modelled from the spec: `np.fft.rfft(a, axis=0)` applied to the three-channel
time series, one triple of bins per frequency index `k ∈ [0, N/2]`. -/
noncomputable def rfft3 (a : List (ℝ × ℝ × ℝ)) : List (ℂ × ℂ × ℂ) :=
  (List.range (a.length / 2 + 1)).map fun k =>
    (dftBin (a.map fun v => v.1) k,
     dftBin (a.map fun v => v.2.1) k,
     dftBin (a.map fun v => v.2.2) k)

/-- Modelled from the spec: one output sample of the inverse real transform
collaborator ("N/2+1 complex bins → N real samples"), with the Hermitian
doubling of the interior bins. -/
noncomputable def irfftSample (A : List ℂ) (m : ℕ) : ℝ :=
  let n : ℕ := 2 * (A.length - 1)
  (1 / (n : ℝ)) * ∑ k ∈ Finset.range A.length,
    (if k = 0 ∨ k = A.length - 1 then 1 else 2) *
      ((A.getD k 0) * Complex.exp ((2 * Real.pi * Complex.I * k * m) / (n : ℂ))).re

/-- Modelled from the spec: `np.fft.irfft(A, axis=0)` applied to the
three-channel spectrum, producing `2 * (len(A) - 1)` time-domain samples. -/
noncomputable def irfft3 (A : List (ℂ × ℂ × ℂ)) : List (ℝ × ℝ × ℝ) :=
  (List.range (2 * (A.length - 1))).map fun m =>
    (irfftSample (A.map fun z => z.1) m,
     irfftSample (A.map fun z => z.2.1) m,
     irfftSample (A.map fun z => z.2.2) m)

/-- Source `getShindo`: `afil_total = np.sqrt(np.sum(afil**2, axis=1))`, the
per-sample Euclidean magnitude across the three filtered channels. -/
noncomputable def afilTotal (afil : List (ℝ × ℝ × ℝ)) : List ℝ :=
  afil.map fun v => Real.sqrt (v.1 ^ 2 + v.2.1 ^ 2 + v.2.2 ^ 2)

/-- Round to the nearest integer, ties to even: the rounding mode of `np.round`
in exact arithmetic. -/
noncomputable def roundEven (x : ℝ) : ℤ :=
  if x - (⌊x⌋ : ℝ) < (⌈x⌉ : ℝ) - x then ⌊x⌋
  else if (⌈x⌉ : ℝ) - x < x - (⌊x⌋ : ℝ) then ⌈x⌉
  else if Even ⌊x⌋ then ⌊x⌋ else ⌈x⌉

/-- `np.round(x, decimals = d)` in exact arithmetic: scale by `10^d`, round
half-to-even, scale back. -/
noncomputable def npRound (x : ℝ) (d : ℕ) : ℝ := ((roundEven (x * 10 ^ d) : ℤ) : ℝ) / 10 ^ d

/-- The spec's error taxonomy (§7).  The source has exactly one failure mode,
the unbounded search loop, modelled as `nonConvergence` (fuel exhaustion);
`invalidInput` and `domainError` exist in the taxonomy but the source never
signals them. -/
inductive ShindoError
  | invalidInput
  | domainError
  | nonConvergence
  deriving DecidableEq

/-- Source `getShindo`: FFT → `_filter` → inverse FFT → per-sample magnitude →
`_search_aval` → `I = np.floor(np.round(2*np.log10(aval) + 0.94, 2) * 10) / 10`.
The source performs no input validation; the only failure mode is the search
loop never terminating (fuel exhaustion here). -/
noncomputable def getShindo (a : List (ℝ × ℝ × ℝ)) (Ts : ℝ) (fuel : ℕ) : Except ShindoError ℝ :=
  let A := rfft3 a
  let Afil := _filter A Ts
  let afil := irfft3 Afil
  let afil_total := afilTotal afil
  match _search_aval afil_total Ts fuel with
  | none => Except.error ShindoError.nonConvergence
  | some aval => Except.ok (((⌊(npRound (2 * Real.logb 10 aval + 0.94) 2) * 10⌋ : ℤ) : ℝ) / 10)

/-- The state visible to one run of `getShindo`: the caller's time-domain array
`a` and the spectrum `A` owned by the call.  `np.fft.rfft` allocates a fresh
array, so the spectrum is the only array the pipeline ever writes to. -/
structure RunState where
  a : List (ℝ × ℝ × ℝ)
  A : List (ℂ × ℂ × ℂ)

/-- State-passing form of `getShindo`: the spectrum is created fresh from the
input, `_filter`'s in-place update `A[:,j] *= W` rewrites the spectrum field
only, and the final state is returned together with the result. -/
noncomputable def getShindoRun (a : List (ℝ × ℝ × ℝ)) (Ts : ℝ) (fuel : ℕ) :
    Except ShindoError ℝ × RunState :=
  let s₀ : RunState := { a := a, A := rfft3 a }
  let s₁ : RunState := { s₀ with A := _filter s₀.A Ts }
  let afil := irfft3 s₁.A
  let afil_total := afilTotal afil
  (match _search_aval afil_total Ts fuel with
   | none => Except.error ShindoError.nonConvergence
   | some aval => Except.ok (((⌊(npRound (2 * Real.logb 10 aval + 0.94) 2) * 10⌋ : ℤ) : ℝ) / 10),
   s₁)

/-- Source `getShindoName`: the `if/elif` chain over the fixed half-open
intervals, returning the Japanese label when `lang == 'jp'` and the `-`/`+`
label otherwise; the chain has no final `else`, so a real that matched no
branch would fall through (`none`). -/
noncomputable def getShindoName (I : ℝ) (lang : String) : Option String :=
  if I < 0.5 then some "0"
  else if 0.5 ≤ I ∧ I < 1.5 then some "1"
  else if 1.5 ≤ I ∧ I < 2.5 then some "2"
  else if 2.5 ≤ I ∧ I < 3.5 then some "3"
  else if 3.5 ≤ I ∧ I < 4.5 then some "4"
  else if 4.5 ≤ I ∧ I < 5.0 then (if lang = "jp" then some "5弱" else some "5-")
  else if 5.0 ≤ I ∧ I < 5.5 then (if lang = "jp" then some "5強" else some "5+")
  else if 5.5 ≤ I ∧ I < 6.0 then (if lang = "jp" then some "6弱" else some "6-")
  else if 6.0 ≤ I ∧ I < 6.5 then (if lang = "jp" then some "6強" else some "6+")
  else if 6.5 ≤ I then some "7"
  else none

/-- Modelled from the spec (§4.4): the classification table as a total function
over the reals, by the fixed half-open interval boundaries. -/
noncomputable def specClassify (I : ℝ) (lang : String) : String :=
  if I < 0.5 then "0"
  else if I < 1.5 then "1"
  else if I < 2.5 then "2"
  else if I < 3.5 then "3"
  else if I < 4.5 then "4"
  else if I < 5.0 then (if lang = "jp" then "5弱" else "5-")
  else if I < 5.5 then (if lang = "jp" then "5強" else "5+")
  else if I < 6.0 then (if lang = "jp" then "6弱" else "6-")
  else if I < 6.5 then (if lang = "jp" then "6強" else "6+")
  else "7"

/-- Modelled from the spec (§3, §4.3): the intensity derived from the a value,
`I = floor(round(2*log10(AValue) + 0.94, 2 decimals) * 10) / 10`: the raw value
is rounded to two decimal places (half-to-even) and then truncated to one
decimal place. -/
noncomputable def specIntensity (aval : ℝ) : ℝ :=
  ((⌊(((roundEven ((2 * Real.logb 10 aval + 0.94) * 100) : ℤ) : ℝ) / 100) * 10⌋ : ℤ) : ℝ) / 10

theorem searchFrom_band {α : Type} [LinearOrderedField α] (a : List α) (Ts : α) :
    ∀ (fuel : ℕ) (v r : α), searchFrom a Ts fuel v = some r →
      T_ref α - searchEps α ≤ Tabove a Ts r ∧ Tabove a Ts r ≤ T_ref α + searchEps α := by
  intro fuel
  induction fuel with
  | zero => intro v r h; simp [searchFrom] at h
  | succ n ih =>
    intro v r h
    simp only [searchFrom] at h
    split_ifs at h with h1 h2
    · exact ih _ _ h
    · exact ih _ _ h
    · cases h
      exact ⟨le_of_not_lt h1, le_of_not_lt h2⟩

theorem searchFrom_pos {α : Type} [LinearOrderedField α] (a : List α) (Ts : α) :
    ∀ (fuel : ℕ) (v r : α), 0 < v → searchFrom a Ts fuel v = some r → 0 < r := by
  intro fuel
  induction fuel with
  | zero => intro v r _ h; simp [searchFrom] at h
  | succ n ih =>
    intro v r hv h
    simp only [searchFrom] at h
    split_ifs at h with h1 h2
    · exact ih _ _ (by linarith) h
    · exact ih _ _ (by linarith) h
    · cases h; exact hv

theorem band_lo_pos {α : Type} [LinearOrderedField α] : (0:α) < T_ref α - searchEps α := by
  norm_num [T_ref, searchEps]

theorem searchFrom_Ts_pos {α : Type} [LinearOrderedField α] {a : List α} {Ts : α}
    {fuel : ℕ} {v r : α} (h : searchFrom a Ts fuel v = some r) : 0 < Ts := by
  rcases searchFrom_band a Ts fuel v r h with ⟨hlo, -⟩
  by_contra hTs
  push_neg at hTs
  have hcount : (0:α) ≤ ((a.countP fun x => decide (r ≤ x) : ℕ) : α) := Nat.cast_nonneg _
  have : Tabove a Ts r ≤ 0 := mul_nonpos_of_nonneg_of_nonpos hcount hTs
  have := band_lo_pos (α := α)
  linarith

theorem countP_ge_antitone {α : Type} [LinearOrderedField α] (a : List α) {v w : α}
    (hvw : v ≤ w) :
    (a.countP fun x => decide (w ≤ x)) ≤ (a.countP fun x => decide (v ≤ x)) := by
  refine List.countP_mono_left fun x _ hx => ?_
  simp only [decide_eq_true_eq] at hx ⊢
  exact le_trans hvw hx

theorem searchFrom_no_stop_above {α : Type} [LinearOrderedField α] {a : List α} {Ts : α}
    {v₀ : α} (hTs : 0 < Ts) (hlow : Tabove a Ts v₀ < T_ref α - searchEps α) :
    ∀ (fuel : ℕ) (v r : α), searchFrom a Ts fuel v = some r → r < v₀ := by
  intro fuel v r h
  rcases searchFrom_band a Ts fuel v r h with ⟨hlo, -⟩
  by_contra hc
  push_neg at hc
  have hcnt := countP_ge_antitone a hc
  have : Tabove a Ts r ≤ Tabove a Ts v₀ :=
    mul_le_mul_of_nonneg_right (Nat.cast_le.2 hcnt) (le_of_lt hTs)
  linarith

theorem searchFrom_no_stop_below {α : Type} [LinearOrderedField α] {a : List α} {Ts : α}
    {v₀ : α} (hTs : 0 < Ts) (hhigh : T_ref α + searchEps α < Tabove a Ts v₀) :
    ∀ (fuel : ℕ) (v r : α), searchFrom a Ts fuel v = some r → v₀ < r := by
  intro fuel v r h
  rcases searchFrom_band a Ts fuel v r h with ⟨-, hhi⟩
  by_contra hc
  push_neg at hc
  have hcnt := countP_ge_antitone a hc
  have : Tabove a Ts v₀ ≤ Tabove a Ts r :=
    mul_le_mul_of_nonneg_right (Nat.cast_le.2 hcnt) (le_of_lt hTs)
  linarith

theorem countP_ge_of_forall₂ {α : Type} [LinearOrderedField α] {B A : List α}
    (h : List.Forall₂ (· ≤ ·) B A) (v : α) :
    (B.countP fun x => decide (v ≤ x)) ≤ (A.countP fun x => decide (v ≤ x)) := by
  induction h with
  | nil => simp
  | @cons b a B' A' hba htl ih =>
    simp only [List.countP_cons]
    have : (if decide (v ≤ b) = true then 1 else 0) ≤ (if decide (v ≤ a) = true then 1 else 0) := by
      split_ifs with hb ha
      · exact le_refl _
      · exfalso
        simp only [decide_eq_true_eq] at hb ha
        exact ha (le_trans hb hba)
      · exact Nat.zero_le _
      · exact le_refl _
    omega

theorem searchFrom_mono {α : Type} [LinearOrderedField α] {A B : List α} {Ts : α}
    (hTs : 0 < Ts)
    (hdom : ∀ v : α, (B.countP fun x => decide (v ≤ x)) ≤ (A.countP fun x => decide (v ≤ x))) :
    ∀ (f₁ f₂ : ℕ) (v rA rB : α),
      searchFrom A Ts f₁ v = some rA → searchFrom B Ts f₂ v = some rB → rB ≤ rA := by
  intro f₁
  induction f₁ with
  | zero => intro f₂ v rA rB hA _; simp [searchFrom] at hA
  | succ n ih =>
    intro f₂ v rA rB hA hB
    have hT : Tabove B Ts v ≤ Tabove A Ts v :=
      mul_le_mul_of_nonneg_right (Nat.cast_le.2 (hdom v)) (le_of_lt hTs)
    simp only [searchFrom] at hA
    split_ifs at hA with h1 h2
    · -- A moves down at v; B must move down as well
      cases f₂ with
      | zero => simp [searchFrom] at hB
      | succ m =>
        simp only [searchFrom] at hB
        rw [if_pos (lt_of_le_of_lt hT h1)] at hB
        exact ih m _ _ _ hA hB
    · -- A moves up at v, so A cannot stop at or below v
      have hrA : v < rA := searchFrom_no_stop_below hTs h2 n _ rA hA
      cases f₂ with
      | zero => simp [searchFrom] at hB
      | succ m =>
        simp only [searchFrom] at hB
        split_ifs at hB with hb1 hb2
        · exact le_of_lt (lt_trans (searchFrom_no_stop_above hTs hb1 m _ rB hB) hrA)
        · exact ih m _ _ _ hA hB
        · cases hB; exact le_of_lt hrA
    · -- A stops at v
      cases hA
      cases f₂ with
      | zero => simp [searchFrom] at hB
      | succ m =>
        simp only [searchFrom] at hB
        split_ifs at hB with hb1 hb2
        · exact le_of_lt (searchFrom_no_stop_above hTs hb1 m _ rB hB)
        · exact absurd (lt_of_lt_of_le hb2 hT) h2
        · cases hB; exact le_refl _

/-- **C2.** Whenever the intensity search `_search_aval` terminates on a magnitude
series `a` with sampling period `Ts`, the returned a value `r` satisfies the
convergence invariant `|count(x ≥ r) * Ts - 0.3| ≤ 0.0003`. -/
theorem c2_convergence_invariant {α : Type} [LinearOrderedField α] (a : List α) (Ts : α)
    (fuel : ℕ) (r : α) (h : _search_aval a Ts fuel = some r) :
    |((a.countP fun x => decide (r ≤ x) : ℕ) : α) * Ts - 0.3| ≤ 0.0003 := by
  rcases searchFrom_band a Ts fuel 2000 r h with ⟨hlo, hhi⟩
  rw [abs_le]
  unfold Tabove at hlo hhi
  constructor
  · have : T_ref α - searchEps α = 0.3 - 0.0003 := by norm_num [T_ref, searchEps]
    linarith [this ▸ hlo]
  · have : T_ref α + searchEps α = 0.3 + 0.0003 := by norm_num [T_ref, searchEps]
    linarith [this ▸ hhi]

/-- Witness for C2: on the series `[3000, 3000, 3000]` with `Ts = 1/10` the search
terminates at once with a value 2000, and the invariant holds there. -/
theorem c2_witness :
    |(([(3000:ℚ), 3000, 3000].countP fun x => decide ((2000:ℚ) ≤ x) : ℕ) : ℚ) * (1/10) - 0.3|
      ≤ 0.0003 :=
  c2_convergence_invariant [(3000:ℚ), 3000, 3000] (1/10) 1 2000
    (by norm_num [_search_aval, searchFrom, Tabove, List.countP_cons, T_ref, searchEps])

/-- **C6.** On an all-zero magnitude series, no iterate of the intensity search
satisfies the acceptance band, and the loop never terminates: every positive
working estimate fails the band, and `_search_aval` returns `none` for every fuel. -/
theorem c6_all_zero_divergence {α : Type} [LinearOrderedField α] (n : ℕ) (Ts : α) :
    (∀ v : α, 0 < v →
      ¬(T_ref α - searchEps α ≤ Tabove (List.replicate n 0) Ts v ∧
        Tabove (List.replicate n 0) Ts v ≤ T_ref α + searchEps α)) ∧
    (∀ fuel : ℕ, _search_aval (List.replicate n (0:α)) Ts fuel = none) := by
  have hcount : ∀ v : α, 0 < v →
      ((List.replicate n (0:α)).countP fun x => decide (v ≤ x)) = 0 := by
    intro v hv
    rw [List.countP_eq_zero]
    intro x hx
    rw [List.eq_of_mem_replicate hx]
    simp only [decide_eq_true_eq]
    exact not_le.2 hv
  have hTab : ∀ v : α, 0 < v → Tabove (List.replicate n 0) Ts v = 0 := by
    intro v hv
    unfold Tabove
    rw [hcount v hv]
    simp
  constructor
  · intro v hv hband
    rw [hTab v hv] at hband
    exact absurd hband.1 (not_le.2 (band_lo_pos (α := α)))
  · intro fuel
    have main : ∀ (f : ℕ) (v : α), 0 < v →
        searchFrom (List.replicate n (0:α)) Ts f v = none := by
      intro f
      induction f with
      | zero => intro v _; simp [searchFrom]
      | succ m ih =>
        intro v hv
        simp only [searchFrom]
        rw [if_pos (by rw [hTab v hv]; exact band_lo_pos)]
        exact ih _ (by linarith)
    exact main fuel 2000 (by norm_num)

/-- Witness for C6: concrete instance at `ℚ` with two zero samples, `Ts = 1/10`,
estimate `v = 5` and fuel 4. -/
theorem c6_witness :
    ¬(T_ref ℚ - searchEps ℚ ≤ Tabove (List.replicate 2 0) (1/10) 5 ∧
      Tabove (List.replicate 2 0) (1/10) 5 ≤ T_ref ℚ + searchEps ℚ) ∧
    _search_aval (List.replicate 2 (0:ℚ)) (1/10) 4 = none :=
  ⟨(c6_all_zero_divergence 2 (1/10)).1 5 (by norm_num),
   (c6_all_zero_divergence 2 (1/10)).2 4⟩

/-- **C7.** Monotonicity of the intensity search: if every sample of series `A`
is ≥ the corresponding sample of series `B` (same length), the sampling period is
shared, and the search terminates on both series, then the a value found for `A`
is ≥ the a value found for `B`. -/
theorem c7_monotonicity {α : Type} [LinearOrderedField α] (A B : List α) (Ts : α)
    (hAB : List.Forall₂ (· ≤ ·) B A) (f₁ f₂ : ℕ) (rA rB : α)
    (hA : _search_aval A Ts f₁ = some rA) (hB : _search_aval B Ts f₂ = some rB) :
    rB ≤ rA := by
  have hTs : 0 < Ts := searchFrom_Ts_pos hA
  exact searchFrom_mono hTs (countP_ge_of_forall₂ hAB) f₁ f₂ 2000 rA rB hA hB

/-- Witness for C7: both series equal to `[3000, 3000, 3000]`, `Ts = 1/10`. -/
theorem c7_witness : (2000:ℚ) ≤ 2000 :=
  c7_monotonicity [(3000:ℚ), 3000, 3000] [(3000:ℚ), 3000, 3000] (1/10)
    (List.forall₂_same.2 fun x _ => le_refl x) 1 1 2000 2000
    (by norm_num [_search_aval, searchFrom, Tabove, List.countP_cons, T_ref, searchEps])
    (by norm_num [_search_aval, searchFrom, Tabove, List.countP_cons, T_ref, searchEps])

/-- **C10.** Invariant of `_search_aval`: the working estimate is strictly positive
at every iteration (each update maps `aval` to `aval / 2` or `3 * aval / 2`), the
start value 2000 is positive, and hence any value the search returns is strictly
positive (which is what makes the `log10` applied to it in `getShindo` defined). -/
theorem c10_aval_positive {α : Type} [LinearOrderedField α] :
    (∀ (a : List α) (Ts : α) (fuel : ℕ) (v r : α),
      0 < v → searchFrom a Ts fuel v = some r → 0 < r) ∧
    (∀ (a : List α) (Ts : α) (fuel : ℕ) (r : α),
      _search_aval a Ts fuel = some r → 0 < r) :=
  ⟨fun a Ts fuel v r hv h => searchFrom_pos a Ts fuel v r hv h,
   fun a Ts fuel r h => searchFrom_pos a Ts fuel 2000 r (by norm_num) h⟩

/-- Witness for C10: the concrete terminating run of C2 returns a positive value. -/
theorem c10_witness : (0:ℚ) < 2000 :=
  (c10_aval_positive (α := ℚ)).2 [(3000:ℚ), 3000, 3000] (1/10) 1 2000
    (by norm_num [_search_aval, searchFrom, Tabove, List.countP_cons, T_ref, searchEps])

theorem filter_apply (A : List (ℂ × ℂ × ℂ)) (Ts : ℝ) (k : ℕ) :
    (_filter A Ts)[k]? = A[k]?.map fun z =>
      (((filterWeight ((k : ℝ) / ((A.length : ℝ) * Ts * 2)) : ℝ) : ℂ) * z.1,
       ((filterWeight ((k : ℝ) / ((A.length : ℝ) * Ts * 2)) : ℝ) : ℂ) * z.2.1,
       ((filterWeight ((k : ℝ) / ((A.length : ℝ) * Ts * 2)) : ℝ) : ℂ) * z.2.2) := by
  simp [_filter, List.getElem?_mapIdx]

/-- **C8.** The spectral filter scales every bin `k` of all three channels by the
same shared real weight `W_pe(f) * W_hc(f) * W_lc(f)` at the bin's frequency
`f = k / (len(A) * Ts * 2)`; it is channel-agnostic and total (it always
produces the scaled spectrum). -/
theorem c8_filter_shared_weight (A : List (ℂ × ℂ × ℂ)) (Ts : ℝ) (k : ℕ) :
    (_filter A Ts)[k]? = A[k]?.map fun z =>
      (((W_pe ((k : ℝ) / ((A.length : ℝ) * Ts * 2))
          * W_hc ((k : ℝ) / ((A.length : ℝ) * Ts * 2))
          * W_lc ((k : ℝ) / ((A.length : ℝ) * Ts * 2)) : ℝ) : ℂ) * z.1,
       ((W_pe ((k : ℝ) / ((A.length : ℝ) * Ts * 2))
          * W_hc ((k : ℝ) / ((A.length : ℝ) * Ts * 2))
          * W_lc ((k : ℝ) / ((A.length : ℝ) * Ts * 2)) : ℝ) : ℂ) * z.2.1,
       ((W_pe ((k : ℝ) / ((A.length : ℝ) * Ts * 2))
          * W_hc ((k : ℝ) / ((A.length : ℝ) * Ts * 2))
          * W_lc ((k : ℝ) / ((A.length : ℝ) * Ts * 2)) : ℝ) : ℂ) * z.2.2) := by
  have h := filter_apply A Ts k
  simpa [filterWeight] using h

theorem hcPoly_ge_one {f : ℝ} (hf : 0 ≤ f) : 1 ≤ hcPoly f := by
  unfold hcPoly
  have h : 0 ≤ f / 10 := by positivity
  nlinarith [pow_nonneg h 2, pow_nonneg h 4, pow_nonneg h 6, pow_nonneg h 8,
    pow_nonneg h 10, pow_nonneg h 12]

theorem filterWeight_sqrt_form {f : ℝ} (hf : 0 ≤ f) :
    filterWeight f =
      Real.sqrt ((1 / (f + 0.0001)) * (hcPoly f)⁻¹ * (1 - Real.exp (-(f / 0.5) ^ 3))) := by
  have h1 : (0:ℝ) ≤ 1 / (f + 0.0001) := by positivity
  have h2 : (0:ℝ) ≤ (1 / (f + 0.0001)) * (hcPoly f)⁻¹ := by
    have := hcPoly_ge_one hf
    positivity
  rw [Real.sqrt_mul h2, Real.sqrt_mul h1]
  unfold filterWeight W_pe W_hc W_lc
  rw [Real.sqrt_inv, one_div]
  ring

theorem exp_neg_inv27_le : Real.exp (-(1/27 : ℝ)) ≤ 27/28 := by
  have h := Real.add_one_le_exp (1/27 : ℝ)
  have hpos : (0:ℝ) < 28/27 := by norm_num
  have h' : (28/27 : ℝ) ≤ Real.exp (1/27) := by linarith
  rw [Real.exp_neg]
  calc (Real.exp (1/27))⁻¹ ≤ ((28:ℝ)/27)⁻¹ := inv_anti₀ hpos h'
    _ = 27/28 := by norm_num

theorem exp_neg_inv64_ge : (1:ℝ) - 1/64 ≤ Real.exp (-(1/64 : ℝ)) := by
  have h := Real.add_one_le_exp (-(1/64) : ℝ)
  linarith

/-- The combined filter weight distinguishes the frequency `1/6` (bin 1 of a
3-bin spectrum at `Ts = 1`) from the frequency `1/8` (the value predicted when
`N` is read as the time-domain sample count `4`). -/
theorem weight_lt : filterWeight (1/8) < filterWeight (1/6) := by
  have h8 : ((1:ℝ)/8) ≥ 0 := by norm_num
  have h6 : ((1:ℝ)/6) ≥ 0 := by norm_num
  rw [filterWeight_sqrt_form h8, filterWeight_sqrt_form h6]
  have e8 : (-((1:ℝ)/8 / 0.5) ^ 3) = -(1/64 : ℝ) := by norm_num
  have e6 : (-((1:ℝ)/6 / 0.5) ^ 3) = -(1/27 : ℝ) := by norm_num
  rw [e8, e6]
  apply Real.sqrt_lt_sqrt
  · have hp : (1:ℝ) ≤ hcPoly (1/8) := hcPoly_ge_one h8
    have hexp : Real.exp (-(1/64 : ℝ)) ≤ 1 := Real.exp_le_one_iff.2 (by norm_num)
    have : (0:ℝ) ≤ 1 - Real.exp (-(1/64 : ℝ)) := by linarith
    have hinv : (0:ℝ) ≤ (hcPoly (1/8))⁻¹ := by positivity
    positivity
  · have hp8 : (1:ℝ) ≤ hcPoly (1/8) := hcPoly_ge_one h8
    have hp6 : hcPoly (1/6) ≤ 1.0003 := by
      unfold hcPoly; norm_num
    have hp6' : (1:ℝ) ≤ hcPoly (1/6) := hcPoly_ge_one h6
    have u1 : (1:ℝ) / (1/8 + 0.0001) ≤ 8 := by norm_num
    have u2 : (hcPoly (1/8))⁻¹ ≤ 1 := inv_le_one_of_one_le₀ hp8
    have u3 : 1 - Real.exp (-(1/64 : ℝ)) ≤ 1/64 := by have := exp_neg_inv64_ge; linarith
    have n2 : (0:ℝ) ≤ (hcPoly (1/8))⁻¹ := by positivity
    have n3 : (0:ℝ) ≤ 1 - Real.exp (-(1/64 : ℝ)) := by
      have : Real.exp (-(1/64 : ℝ)) ≤ 1 := Real.exp_le_one_iff.2 (by norm_num)
      linarith
    have hL : (1 / (1/8 + 0.0001)) * (hcPoly (1/8))⁻¹ * (1 - Real.exp (-(1/64 : ℝ)))
        ≤ 8 * 1 * (1/64) := by
      apply mul_le_mul _ u3 n3 (by norm_num)
      exact mul_le_mul u1 u2 n2 (by norm_num)
    have l1 : (5.996 : ℝ) ≤ 1 / (1/6 + 0.0001) := by norm_num
    have l2 : (0.999 : ℝ) ≤ (hcPoly (1/6))⁻¹ := by
      calc (0.999 : ℝ) ≤ (1.0003 : ℝ)⁻¹ := by norm_num
        _ ≤ (hcPoly (1/6))⁻¹ := inv_anti₀ (by linarith) hp6
    have l3 : (1/28 : ℝ) ≤ 1 - Real.exp (-(1/27 : ℝ)) := by have := exp_neg_inv27_le; linarith
    have hR : (5.996 : ℝ) * 0.999 * (1/28)
        ≤ (1 / (1/6 + 0.0001)) * (hcPoly (1/6))⁻¹ * (1 - Real.exp (-(1/27 : ℝ))) := by
      apply mul_le_mul _ l3 (by norm_num) _
      · exact mul_le_mul l1 l2 (by norm_num) (by norm_num)
      · have h1 : (0:ℝ) ≤ (hcPoly (1/6))⁻¹ := by positivity
        have h2 : (0:ℝ) ≤ 1 / (1/6 + 0.0001) := by norm_num
        positivity
    calc (1 / ((1:ℝ)/8 + 0.0001)) * (hcPoly (1/8))⁻¹ * (1 - Real.exp (-(1/64 : ℝ)))
        ≤ 8 * 1 * (1/64) := hL
      _ < 5.996 * 0.999 * (1/28) := by norm_num
      _ ≤ (1 / (1/6 + 0.0001)) * (hcPoly (1/6))⁻¹ * (1 - Real.exp (-(1/27 : ℝ))) := hR

/-- **C1 (counterexample).** The claim predicts that bin 1 of a 3-bin spectrum
(`N = 4` time-domain samples, `Ts = 1`) is scaled by the weight at
`f = 1 / (4 * 1 * 2) = 1/8`; the code scales it by the weight at
`f = 1 / (3 * 1 * 2) = 1/6` (it uses `len(A) = 3`, the bin count), and the two
weights differ. -/
theorem c1_counterexample :
    (_filter [(1,0,0),(1,0,0),(1,0,0)] 1)[1]? ≠
      some (((filterWeight ((1 : ℝ) / ((4 : ℝ) * 1 * 2)) : ℝ) : ℂ) * 1,
            ((filterWeight ((1 : ℝ) / ((4 : ℝ) * 1 * 2)) : ℝ) : ℂ) * 0,
            ((filterWeight ((1 : ℝ) / ((4 : ℝ) * 1 * 2)) : ℝ) : ℂ) * 0) := by
  intro hcontra
  rw [filter_apply] at hcontra
  simp only [List.length_cons, List.length_nil] at hcontra
  norm_num at hcontra
  exact absurd hcontra (ne_of_gt weight_lt)

/-- **C1 (amended).** In `_filter`, the weight applied to bin index `k` is
evaluated at frequency `f = k / (M * Ts * 2)` where `M = len(A)` is the number
of frequency bins of the spectrum (that is, `N/2 + 1` for `N` time-domain
samples), not the time-domain sample count `N` itself. -/
theorem c1_weight_at_bin_count_freq (A : List (ℂ × ℂ × ℂ)) (Ts : ℝ) (k : ℕ) :
    (_filter A Ts)[k]? = A[k]?.map fun z =>
      (((filterWeight ((k : ℝ) / ((A.length : ℝ) * Ts * 2)) : ℝ) : ℂ) * z.1,
       ((filterWeight ((k : ℝ) / ((A.length : ℝ) * Ts * 2)) : ℝ) : ℂ) * z.2.1,
       ((filterWeight ((k : ℝ) / ((A.length : ℝ) * Ts * 2)) : ℝ) : ℂ) * z.2.2) :=
  filter_apply A Ts k

theorem searchFrom_none_of_Ts_nonpos {α : Type} [LinearOrderedField α] (a : List α)
    {Ts : α} (hTs : Ts ≤ 0) : ∀ (fuel : ℕ) (v : α), searchFrom a Ts fuel v = none := by
  intro fuel
  induction fuel with
  | zero => intro v; simp [searchFrom]
  | succ n ih =>
    intro v
    simp only [searchFrom]
    have hT : Tabove a Ts v ≤ 0 :=
      mul_nonpos_of_nonneg_of_nonpos (Nat.cast_nonneg _) hTs
    rw [if_pos (lt_of_le_of_lt hT (band_lo_pos (α := α)))]
    exact ih _

/-- **C3 (counterexample).** At the invalid input `Ts = 0` (non-positive sampling
period) with the non-empty series `[(1,1,1)]`, `getShindo` does not signal an
invalid-input error: no validation happens before the transform, the pipeline
runs, and the intensity search simply never converges. -/
theorem c3_counterexample :
    getShindo [(1,1,1)] 0 3 ≠ Except.error ShindoError.invalidInput ∧
    getShindo [(1,1,1)] 0 3 = Except.error ShindoError.nonConvergence := by
  have hnone :
      _search_aval (afilTotal (irfft3 (_filter (rfft3 [(1,1,1)]) 0))) (0:ℝ) 3 = none :=
    searchFrom_none_of_Ts_nonpos _ le_rfl 3 2000
  constructor
  · simp only [getShindo]
    rw [hnone]
    intro h
    exact ShindoError.noConfusion (Except.error.inj h)
  · simp only [getShindo]
    rw [hnone]

/-- **C3 (amended).** `getShindo` performs no input validation: it never returns
an invalid-input error for any input, and for a non-positive sampling period the
computation does not fail fast before the transform — the pipeline runs and the
intensity search never converges (the unbounded loop, here fuel exhaustion). -/
theorem c3_no_input_validation (a : List (ℝ × ℝ × ℝ)) (Ts : ℝ) (fuel : ℕ) :
    getShindo a Ts fuel ≠ Except.error ShindoError.invalidInput ∧
    (Ts ≤ 0 → getShindo a Ts fuel = Except.error ShindoError.nonConvergence) := by
  constructor
  · simp only [getShindo]
    cases h : _search_aval (afilTotal (irfft3 (_filter (rfft3 a) Ts))) Ts fuel with
    | none =>
      intro hcontra
      exact ShindoError.noConfusion (Except.error.inj hcontra)
    | some aval =>
      intro hcontra
      exact Except.noConfusion hcontra
  · intro hTs
    simp only [getShindo]
    rw [show _search_aval (afilTotal (irfft3 (_filter (rfft3 a) Ts))) Ts fuel = none from
      searchFrom_none_of_Ts_nonpos _ hTs fuel 2000]

/-- Witness for C3 (amended): concrete invalid input `Ts = 0`. -/
theorem c3_witness :
    getShindo [(2,2,2)] 0 5 ≠ Except.error ShindoError.invalidInput ∧
    getShindo [(2,2,2)] 0 5 = Except.error ShindoError.nonConvergence :=
  ⟨(c3_no_input_validation [(2,2,2)] 0 5).1,
   (c3_no_input_validation [(2,2,2)] 0 5).2 le_rfl⟩

/-- **C9.** `getShindo` never mutates the caller's input array: in the
state-passing model of the run, the forward transform produces a fresh spectrum,
the filter's in-place scaling rewrites only that spectrum, and the caller's
array in the final state equals the input; the result agrees with `getShindo`. -/
theorem c9_input_unchanged (a : List (ℝ × ℝ × ℝ)) (Ts : ℝ) (fuel : ℕ) :
    (getShindoRun a Ts fuel).2.a = a ∧ (getShindoRun a Ts fuel).1 = getShindo a Ts fuel :=
  ⟨rfl, rfl⟩

/-- **C5.** `getShindo` maps the a value returned by the intensity search to the
final intensity exactly via `I = floor(round(2*log10(aval) + 0.94, 2 decimals) * 10) / 10`
(round to two decimals half-to-even, then truncate to one decimal); the only
other outcome is non-convergence of the search. -/
theorem c5_intensity_formula (a : List (ℝ × ℝ × ℝ)) (Ts : ℝ) (fuel : ℕ) :
    getShindo a Ts fuel =
      match _search_aval (afilTotal (irfft3 (_filter (rfft3 a) Ts))) Ts fuel with
      | none => Except.error ShindoError.nonConvergence
      | some aval => Except.ok (specIntensity aval) := by
  simp only [getShindo]
  cases h : _search_aval (afilTotal (irfft3 (_filter (rfft3 a) Ts))) Ts fuel with
  | none => rfl
  | some aval =>
    have hnp : npRound (2 * Real.logb 10 aval + 0.94) 2 =
        ((roundEven ((2 * Real.logb 10 aval + 0.94) * 100) : ℤ) : ℝ) / 100 := by
      simp only [npRound]
      norm_num
    simp only [specIntensity, hnp]

/-- **C4.** `getShindoName` is total over the real line, deterministic and
side-effect free: for every real `I` and every language tag it returns exactly
one label, the one given by the fixed half-open interval table of the spec
(Japanese labels for `"jp"`, the `-`/`+` labels otherwise, in particular for
`"en"`). -/
theorem c4_classification (I : ℝ) (lang : String) :
    getShindoName I lang = some (specClassify I lang) := by
  rcases lt_or_le I 0.5 with h0 | h0
  · simp [getShindoName, specClassify, h0]
  rcases lt_or_le I 1.5 with h1 | h1
  · simp [getShindoName, specClassify, not_lt.2 h0, h0, h1]
  rcases lt_or_le I 2.5 with h2 | h2
  · simp [getShindoName, specClassify, not_lt.2 h0, not_lt.2 h1, h1, h2]
  rcases lt_or_le I 3.5 with h3 | h3
  · simp [getShindoName, specClassify, not_lt.2 h0, not_lt.2 h1, not_lt.2 h2, h2, h3]
  rcases lt_or_le I 4.5 with h4 | h4
  · simp [getShindoName, specClassify, not_lt.2 h0, not_lt.2 h1, not_lt.2 h2, not_lt.2 h3, h3, h4]
  rcases lt_or_le I 5.0 with h5 | h5
  · simp [getShindoName, specClassify, not_lt.2 h0, not_lt.2 h1, not_lt.2 h2, not_lt.2 h3,
      not_lt.2 h4, h4, h5, apply_ite]
  rcases lt_or_le I 5.5 with h6 | h6
  · simp [getShindoName, specClassify, not_lt.2 h0, not_lt.2 h1, not_lt.2 h2, not_lt.2 h3,
      not_lt.2 h4, not_lt.2 h5, h5, h6, apply_ite]
  rcases lt_or_le I 6.0 with h7 | h7
  · simp [getShindoName, specClassify, not_lt.2 h0, not_lt.2 h1, not_lt.2 h2, not_lt.2 h3,
      not_lt.2 h4, not_lt.2 h5, not_lt.2 h6, h6, h7, apply_ite]
  rcases lt_or_le I 6.5 with h8 | h8
  · simp [getShindoName, specClassify, not_lt.2 h0, not_lt.2 h1, not_lt.2 h2, not_lt.2 h3,
      not_lt.2 h4, not_lt.2 h5, not_lt.2 h6, not_lt.2 h7, h7, h8, apply_ite]
  · simp [getShindoName, specClassify, not_lt.2 h0, not_lt.2 h1, not_lt.2 h2, not_lt.2 h3,
      not_lt.2 h4, not_lt.2 h5, not_lt.2 h6, not_lt.2 h7, not_lt.2 h8, h8]
